import Mathlib

/-
Verification of the content-lifecycle subsystem of the Infinity-Angles
backend: the post-expiration sweep (src/services/postCleanupService.js),
the Post schema (src/models/Post.js), the explicit post operations
(src/controllers/postsController_old.js), and the image pipeline
(the multer/sharp upload middleware and src/controllers/imageController.js
with the profile configuration from src/config/config.js).

Timestamps are modelled as integers (milliseconds since the epoch, the
unit used by Date.now()).  The document store is a list of records; the
upload directory is a list of files.  Each definition is a direct
translation of the JavaScript it names.
-/

namespace IA

/-- Milliseconds in one hour. -/
def hourMs : Int := 60 * 60 * 1000

/-- Milliseconds in 24 hours (the soft-delete age threshold and the TTL
index duration of 86400 seconds). -/
def dayMs : Int := 24 * hourMs

/-- Milliseconds in 7 days (the hard-delete age threshold). -/
def sevenDaysMs : Int := 7 * dayMs

/-- A Post document (src/models/Post.js).  The schema stores content,
author, category, tags, image references, the soft-delete flag
`isActive` (default true), `expiresAt`, and the timestamps added by the
`timestamps: true` option.  The schema declares no `deletedAt` path;
the `deletedAt` field here is the value a read of `doc.deletedAt`
returns, which is `none` (undefined) on every document the program
writes, because Mongoose's default strict mode strips the unknown path
from update payloads. -/
structure Post where
  id : Nat
  author : Nat
  content : String
  category : String
  tags : List String
  createdAt : Int
  updatedAt : Int
  expiresAt : Int
  isActive : Bool
  deletedAt : Option Int
  images : List String
  deriving Repr, DecidableEq

/-- A User document, restricted to the fields the lifecycle code touches
(the cleanup service and the post controllers reference users only
through `postsCount`). -/
structure User where
  id : Nat
  postsCount : Int
  deriving Repr, DecidableEq

/-- The document store: the posts collection and the users collection. -/
structure DB where
  posts : List Post
  users : List User
  deriving Repr, DecidableEq

/-- The pre-save hook of Post.js (lines 107-114): a newly created post
gets `expiresAt = Date.now() + 24h`; `isActive` defaults to true and
`deletedAt` is unset. -/
def mkPost (id author : Nat) (content category : String) (tags : List String)
    (now : Int) (images : List String) : Post :=
  { id := id, author := author, content := content, category := category,
    tags := tags, createdAt := now, updatedAt := now,
    expiresAt := now + dayMs, isActive := true, deletedAt := none,
    images := images }

/-- The three-state view used by the spec: a present record with
`isActive = true` is Active, a present record with `isActive = false` is
Expired, and a missing record is Purged. -/
inductive PState
  | active
  | expired
  | purged
  deriving Repr, DecidableEq

/-- Numeric rank of a lifecycle state, for monotonicity statements. -/
def pOrd : PState → Nat
  | .active => 0
  | .expired => 1
  | .purged => 2

/-- State of the post with the given id in a store: the first matching
document, Purged when none exists. -/
def postState (db : DB) (pid : Nat) : PState :=
  match db.posts.find? (fun p => p.id == pid) with
  | none => .purged
  | some p => if p.isActive then .active else .expired

/-- The soft-delete selector of cleanupExpiredPosts (lines 37-40 and
53-57): posts with `createdAt < now - 24h` that are still active. -/
def qualifiesSoft (now : Int) (p : Post) : Bool :=
  decide (p.createdAt < now - dayMs) && p.isActive

/-- The hard-delete selector of cleanupExpiredPosts (lines 82-85): posts
with `createdAt < now - 7d` that are already inactive. -/
def qualifiesHard (now : Int) (p : Post) : Bool :=
  decide (p.createdAt < now - sevenDaysMs) && !p.isActive

/-- The update applied by `Post.updateMany` (lines 53-62): a qualifying
post is marked inactive; other posts are untouched.  The payload also
names `deletedAt: new Date()`, but src/models/Post.js declares no
`deletedAt` path and Mongoose's default strict mode silently strips
unknown paths from update payloads, so only `isActive: false` is
persisted. -/
def softMark (now : Int) (p : Post) : Post :=
  if qualifiesSoft now p then { p with isActive := false }
  else p

/-- The `Post.updateMany` write of the sweep, applied to the whole
collection. -/
def softDeleteBatch (now : Int) (posts : List Post) : List Post :=
  posts.map (softMark now)

/-- The `Post.deleteMany` write of the sweep (lines 82-85): removes every
inactive post older than 7 days. -/
def hardDeleteBatch (now : Int) (posts : List Post) : List Post :=
  posts.filter (fun p => !qualifiesHard now p)

/-- Number of active posts of one author: the
`Post.countDocuments({author, isActive: true})` recomputation
(lines 68-71). -/
def countActive (posts : List Post) (a : Nat) : Nat :=
  (posts.filter (fun p => p.author == a && p.isActive)).length

/-- The `User.findByIdAndUpdate(authorId, {postsCount})` overwrite
(lines 73-75): sets the stored counter of that user; a missing user id
leaves the collection unchanged. -/
def setPostsCount (users : List User) (a : Nat) (v : Int) : List User :=
  users.map (fun u => if u.id == a then { u with postsCount := v } else u)

/-- One sweep of the cleanup service
(PostCleanupService.cleanupExpiredPosts, src/services/postCleanupService.js
lines 32-101), run hourly, at startup, and by the manual trigger.  It
finds the qualifying active posts; if there are none it returns at once
(lines 42-45).  Otherwise it collects the distinct author ids, marks the
qualifying posts inactive (the attempted `deletedAt` stamp is stripped
by strict mode, see softMark), recomputes each touched author's
active-post count, and finally hard-deletes inactive posts older than
7 days. -/
def cleanupExpiredPosts (db : DB) (now : Int) : DB :=
  let expiredPosts := db.posts.filter (qualifiesSoft now)
  if expiredPosts.isEmpty then db
  else
    let authorIds := (expiredPosts.map Post.author).dedup
    let posts1 := softDeleteBatch now db.posts
    let users1 := authorIds.foldl
      (fun us a => setPostsCount us a ((countActive posts1 a : Nat) : Int)) db.users
    { posts := hardDeleteBatch now posts1, users := users1 }

/-- The two post-collection writes a sweep issues, as the separate atomic
operations MongoDB executes them as (updateMany is one atomic write). -/
def dbSoftDelete (db : DB) (now : Int) : DB :=
  { db with posts := softDeleteBatch now db.posts }

/-- The deleteMany write of a sweep as a separate atomic operation. -/
def dbHardDelete (db : DB) (now : Int) : DB :=
  { db with posts := hardDeleteBatch now db.posts }

/-- MongoDB TTL reaping for the schema declaration
`expiresAt: { type: Date, default: Date.now, index: { expireAfterSeconds: 86400 } }`
(src/models/Post.js lines 75-79, "24 hours TTL index"): the TTL monitor
permanently removes every document whose `expiresAt` lies at least
86400 seconds in the past. -/
def ttlReap (db : DB) (now : Int) : DB :=
  { db with posts := db.posts.filter (fun p => !decide (p.expiresAt + dayMs ≤ now)) }

/-- Update the first document matching a predicate, as Mongo
`findOneAndUpdate` does. -/
def updateFirst (l : List Post) (pred : Post → Bool) (f : Post → Post) : List Post :=
  match l with
  | [] => []
  | p :: rest => if pred p then f p :: rest else p :: updateFirst rest pred f

/-- The write of the explicit delete: set `isActive: false` (and nothing
else — in particular `deletedAt` is not stamped there). -/
def markInactive (p : Post) : Post :=
  { p with isActive := false }

/-- The explicit user delete
(PostsController.deletePost, src/controllers/postsController_old.js
lines 194-220): `findOneAndUpdate({_id, author, isActive: true},
{isActive: false})`; on a match the author's counter is decremented by
one, otherwise a 404 is returned (`false`). -/
def deletePost (db : DB) (postId userId : Nat) : DB × Bool :=
  match db.posts.find? (fun p => p.id == postId && p.author == userId && p.isActive) with
  | none => (db, false)
  | some _ =>
    let posts1 := updateFirst db.posts
      (fun p => p.id == postId && p.author == userId && p.isActive)
      markInactive
    let users1 := db.users.map
      (fun u => if u.id == userId then { u with postsCount := u.postsCount - 1 } else u)
    ({ posts := posts1, users := users1 }, true)

/-- The field update applied by PostsController.updatePost: content,
category, tags and the refreshed `updatedAt`; lifecycle flags are
untouched. -/
def updContent (content category : String) (tags : List String) (now : Int)
    (p : Post) : Post :=
  { p with content := content, category := category, tags := tags, updatedAt := now }

/-- The post update
(PostsController.updatePost, src/controllers/postsController_old.js
lines 155-191): `findOneAndUpdate({_id, author, isActive: true},
{content, category, tags, updatedAt})`.  Returns `false` (404) when no
active post of that author matches. -/
def updatePost (db : DB) (postId userId : Nat) (content category : String)
    (tags : List String) (now : Int) : DB × Bool :=
  match db.posts.find? (fun p => p.id == postId && p.author == userId && p.isActive) with
  | none => (db, false)
  | some _ =>
    let posts1 := updateFirst db.posts
      (fun p => p.id == postId && p.author == userId && p.isActive)
      (updContent content category tags now)
    ({ db with posts := posts1 }, true)

/-- Stored postsCount of a user, when the user exists. -/
def userCount (users : List User) (a : Nat) : Option Int :=
  (users.find? (fun u => u.id == a)).map User.postsCount

/-- What a stored file holds: either the bytes uploaded by the client
(multer disk storage writes the original unchanged) or the output of a
sharp pipeline ending in `.jpeg({quality})`. -/
inductive FileData
  | original (srcFormat : String)
  | jpegEncoded (quality : Nat)
  deriving Repr, DecidableEq

/-- One file in the upload directory. -/
structure FSFile where
  name : String
  data : FileData
  deriving Repr, DecidableEq

/-- Whole-system state: the document store plus the upload directory.
The cleanup service holds no reference to the filesystem; its sweep acts
on the database alone. -/
structure Sys where
  db : DB
  files : List String
  deriving Repr, DecidableEq

/-- A sweep at the system level: cleanupExpiredPosts performs only
`Post.find`, `Post.updateMany`, `User.findByIdAndUpdate` and
`Post.deleteMany`; no fs call appears anywhere in
src/services/postCleanupService.js, so the upload directory is
untouched. -/
def sweepSys (s : Sys) (now : Int) : Sys :=
  { s with db := cleanupExpiredPosts s.db now }

/-- Index of the last dot in a character list, if any. -/
def lastDotAux : List Char → Nat → Option Nat → Option Nat
  | [], _, acc => acc
  | c :: cs, i, acc => lastDotAux cs (i + 1) (if c = '.' then some i else acc)

/-- Node's `path.parse(filename)` split into `(name, ext)` for a plain
basename: `ext` runs from the last dot to the end; a dot-free name or a
name whose only dot is the leading character has an empty extension. -/
def extSplit (s : String) : String × String :=
  match lastDotAux s.toList 0 none with
  | none => (s, "")
  | some 0 => (s, "")
  | some i => (String.mk (s.toList.take i), String.mk (s.toList.drop i))

/-- A profile's target dimensions. -/
structure Dim where
  width : Nat
  height : Nat
  deriving Repr, DecidableEq

/-- The configured size profiles, `config.images.thumbnailSizes`
(src/config/config.js lines 73-77). -/
def thumbnailSizes : List (String × Dim) :=
  [("small", ⟨150, 150⟩), ("medium", ⟨400, 400⟩), ("large", ⟨800, 600⟩)]

/-- Derivative file name built identically by the upload middleware,
imageController.deleteImage and cleanupFiles:
`path.parse(filename).name + "_" + size + path.extname(filename)`. -/
def thumbName (filename size : String) : String :=
  (extSplit filename).1 ++ "_" ++ size ++ (extSplit filename).2

/-- Output dimensions of `sharp().resize(w, h, { fit: 'cover',
position: 'center' })` (upload middleware lines 131-135): cover scales
the source so both target dimensions are filled and center-crops the
excess, so the output is exactly the requested width by height whatever
the source measures — smaller sources are scaled up.  The
`withoutEnlargement` option is not passed by this call site. -/
def coverDims (srcW srcH tw th : Nat) : Nat × Nat :=
  match srcW, srcH with
  | _, _ => (tw, th)

/-- Dimensions of each profile derivative produced for a source image. -/
def derivativeDims (srcW srcH : Nat) : List (String × (Nat × Nat)) :=
  thumbnailSizes.map (fun sz => (sz.1, coverDims srcW srcH sz.2.width sz.2.height))

/-- One derivative written by the upload middleware (lines 125-137): the
pipeline `sharp(imagePath).resize(w, h, {fit: 'cover'}).jpeg({quality: 85})
.toFile(thumbnailPath)` always ends in `.jpeg`, so the written bytes are
JPEG at quality 85 for every source format, while the file name keeps
the original extension. -/
def generateThumb (orig size : String) : FSFile :=
  { name := thumbName orig size, data := .jpegEncoded 85 }

/-- The profile loop of processImage for one uploaded file, iterating
`Object.entries(config.images.thumbnailSizes)` in order.  `fails` says
whether the sharp call for a profile throws.  On a throw the middleware's
catch forwards the error (`next(error)`) without touching the files
already written — the store keeps the original and every derivative
generated so far. -/
def processProfiles (orig : String) (fails : String → Bool) :
    List (String × Dim) → List FSFile → List FSFile × Bool
  | [], fs => (fs, true)
  | (size, _) :: rest, fs =>
    if fails size then (fs, false)
    else processProfiles orig fails rest (fs ++ [generateThumb orig size])

/-- processImage (upload middleware lines 93-174) for a single uploaded
file whose original `orig` multer has already persisted: generates one
derivative per configured profile; any sharp failure aborts the loop and
reports an error, leaving all files written so far in place. -/
def processImage (files : List FSFile) (orig : String) (fails : String → Bool) :
    List FSFile × Bool :=
  processProfiles orig fails thumbnailSizes files

/-- cleanupFiles (upload middleware lines 221-250): removes an uploaded
file and each of its profile derivatives, ignoring absent thumbnails.
The function is exported from the module but no call site exists
anywhere in the repository. -/
def cleanupFiles (files : List FSFile) (name : String) : List FSFile :=
  let files1 := files.filter (fun f => !(f.name == name))
  thumbnailSizes.foldl
    (fun fs sz => fs.filter (fun f => !(f.name == thumbName name sz.1))) files1

/-- Status of the image endpoints. -/
inductive ImgStatus
  | ok
  | notFound
  deriving Repr, DecidableEq

/-- GET /images/:filename (imageController.getImage lines 73-111):
404 when `fs.access` on the file fails, the file otherwise. -/
def getImage (files : List FSFile) (filename : String) : ImgStatus :=
  if files.any (fun f => f.name == filename) then .ok else .notFound

/-- The thumbnail-deletion loop of deleteImage (lines 136-148): for each
configured size, unlink `name_size ext`, ignoring a missing file. -/
def deleteThumbs (filename : String) (szs : List (String × Dim))
    (files : List FSFile) : List FSFile :=
  szs.foldl (fun fs sz => fs.filter (fun f => !(f.name == thumbName filename sz.1))) files

/-- DELETE /images/:filename (imageController.deleteImage lines 114-162):
404 when `fs.access` on the main file fails — whether the id was never
known or its files were already removed; otherwise unlink the main file,
best-effort unlink each thumbnail, and answer 200. -/
def deleteImage (files : List FSFile) (filename : String) :
    List FSFile × ImgStatus :=
  if files.any (fun f => f.name == filename) then
    let files1 := files.filter (fun f => !(f.name == filename))
    (deleteThumbs filename thumbnailSizes files1, .ok)
  else (files, .notFound)

/-- A post by author 7 created at time 0, carrying one image. -/
def post0 : Post := mkPost 1 7 "hello" "Ideas" [] 0 ["a.jpg"]

/-- A post by author 7 created on day 6, still fresh at the day-8 sweep
used in witnesses. -/
def freshPost : Post := mkPost 3 7 "fresh" "Ideas" [] (6 * dayMs) []

/-- An eight-day-old record that was soft-deleted at the 24-hour mark. -/
def stalePost : Post :=
  { mkPost 2 7 "stale" "Ideas" [] 0 ["b.jpg"] with isActive := false }

/-- A stored asset with its three profile derivatives. -/
def sampleFiles : List FSFile :=
  [⟨"a.jpg", .original "jpeg"⟩, ⟨"a_small.jpg", .jpegEncoded 85⟩,
   ⟨"a_medium.jpg", .jpegEncoded 85⟩, ⟨"a_large.jpg", .jpegEncoded 85⟩]

/-- Searching a collection transformed by an id-preserving map finds the
transform of the original hit. -/
lemma find?_map_post (f : Post → Post) (hid : ∀ p, (f p).id = p.id) (pid : Nat) :
    ∀ l : List Post,
      (l.map f).find? (fun q => q.id == pid) = (l.find? (fun q => q.id == pid)).map f
  | [] => rfl
  | a :: t => by
    simp only [List.map_cons, List.find?]
    rw [hid a]
    cases h : (a.id == pid) with
    | true => simp
    | false => simpa using find?_map_post f hid pid t

/-- When no record carries the id, the search fails. -/
lemma find?_id_eq_none (l : List Post) (pid : Nat) (h : ∀ p ∈ l, p.id ≠ pid) :
    l.find? (fun q => q.id == pid) = none := by
  rw [List.find?_eq_none]
  intro x hx
  simpa using h x hx

/-- Under distinct ids, searching for a member's id finds exactly that
member. -/
lemma find?_of_mem_nodup :
    ∀ (l : List Post) (p : Post), (l.map Post.id).Nodup → p ∈ l →
      l.find? (fun q => q.id == p.id) = some p
  | a :: t, p, hnd, hmem => by
    simp only [List.map_cons, List.nodup_cons] at hnd
    rcases List.mem_cons.mp hmem with rfl | hmt
    · simp [List.find?]
    · have hne : a.id ≠ p.id := by
        intro hcontra
        exact hnd.1 (hcontra ▸ List.mem_map_of_mem Post.id hmt)
      simp only [List.find?]
      cases h : (a.id == p.id) with
      | true => exact absurd (by simpa using h) hne
      | false => exact find?_of_mem_nodup t p hnd.2 hmt

/-- Under distinct ids, filtering either keeps the unique hit or removes
it entirely. -/
lemma find?_filter_nodup (q : Post → Bool) (pid : Nat) :
    ∀ l : List Post, (l.map Post.id).Nodup →
      (l.filter q).find? (fun x => x.id == pid) =
        match l.find? (fun x => x.id == pid) with
        | none => none
        | some p => if q p then some p else none
  | [], _ => rfl
  | a :: t, hnd => by
    simp only [List.map_cons, List.nodup_cons] at hnd
    cases ha : (a.id == pid) with
    | true =>
      have haid : a.id = pid := by simpa using ha
      cases hqa : q a with
      | true => simp [List.filter_cons, hqa, List.find?, ha]
      | false =>
        have hnone : (t.filter q).find? (fun x => x.id == pid) = none := by
          apply find?_id_eq_none
          intro x hx
          intro hxid
          exact hnd.1 (by
            rw [haid, ← hxid]
            exact List.mem_map_of_mem Post.id (List.mem_of_mem_filter hx))
        simp [List.filter_cons, hqa, List.find?, ha, hnone]
    | false =>
      have ih := find?_filter_nodup q pid t hnd.2
      cases hqa : q a with
      | true => simp [List.filter_cons, hqa, List.find?, ha, ih]
      | false => simp [List.filter_cons, hqa, List.find?, ha, ih]

/-- softMark never changes a document's id. -/
lemma softMark_id (now : Int) (p : Post) : (softMark now p).id = p.id := by
  unfold softMark
  split <;> rfl

/-- An already-inactive post is not selected by the updateMany query. -/
lemma softMark_of_inactive (now : Int) (p : Post) (h : p.isActive = false) :
    softMark now p = p := by
  unfold softMark qualifiesSoft
  simp [h]

/-- A post younger than the threshold is not selected by the updateMany
query. -/
lemma softMark_of_young (now : Int) (p : Post) (h : ¬ p.createdAt < now - dayMs) :
    softMark now p = p := by
  unfold softMark qualifiesSoft
  simp [h]

/-- A qualifying active post is marked inactive (and nothing else: the
attempted deletedAt stamp is stripped). -/
lemma softMark_of_qual (now : Int) (p : Post) (hact : p.isActive = true)
    (h : p.createdAt < now - dayMs) :
    softMark now p = { p with isActive := false } := by
  unfold softMark qualifiesSoft
  simp [h, hact]

/-- The 7-day cutoff lies no later than the 24-hour cutoff. -/
lemma cutoff7_le_cutoff24 (now : Int) : now - sevenDaysMs ≤ now - dayMs := by
  have : dayMs ≤ sevenDaysMs := by norm_num [dayMs, sevenDaysMs, hourMs]
  omega

/-- With an empty soft-delete batch the sweep returns immediately,
leaving the store untouched (the early return of lines 42-45). -/
lemma cleanup_of_empty (db : DB) (now : Int)
    (h : db.posts.filter (qualifiesSoft now) = []) :
    cleanupExpiredPosts db now = db := by
  simp [cleanupExpiredPosts, h]

/-- With a nonempty batch the sweep runs all three phases. -/
lemma cleanup_of_nonempty (db : DB) (now : Int)
    (h : ¬ db.posts.filter (qualifiesSoft now) = []) :
    cleanupExpiredPosts db now =
      { posts := hardDeleteBatch now (softDeleteBatch now db.posts),
        users :=
          ((db.posts.filter (qualifiesSoft now)).map Post.author).dedup.foldl
            (fun us a =>
              setPostsCount us a
                ((countActive (softDeleteBatch now db.posts) a : Nat) : Int))
            db.users } := by
  have hne : (db.posts.filter (qualifiesSoft now)).isEmpty = false := by
    cases hE : db.posts.filter (qualifiesSoft now) with
    | nil => exact absurd hE h
    | cons a t => rfl
  simp [cleanupExpiredPosts, hne, softDeleteBatch]

/-- The updateMany write preserves the distinctness of ids. -/
lemma softDeleteBatch_ids_nodup (db : DB) (now : Int)
    (hnd : (db.posts.map Post.id).Nodup) :
    ((softDeleteBatch now db.posts).map Post.id).Nodup := by
  have : (softDeleteBatch now db.posts).map Post.id = db.posts.map Post.id := by
    unfold softDeleteBatch
    rw [List.map_map]
    exact List.map_congr_left (fun p _ => softMark_id now p)
  rw [this]
  exact hnd

/-- After a nonempty sweep, the unique record of a pre-sweep post is its
softMark image, kept iff it escapes the hard delete. -/
lemma find?_sweep_posts (db : DB) (now : Int) (p : Post)
    (hnd : (db.posts.map Post.id).Nodup) (hmem : p ∈ db.posts)
    (hbatch : ¬ db.posts.filter (qualifiesSoft now) = []) :
    (cleanupExpiredPosts db now).posts.find? (fun q => q.id == p.id) =
      (if qualifiesHard now (softMark now p) then none else some (softMark now p)) := by
  rw [cleanup_of_nonempty db now hbatch]
  show (hardDeleteBatch now (softDeleteBatch now db.posts)).find? (fun q => q.id == p.id) = _
  unfold hardDeleteBatch
  rw [find?_filter_nodup _ p.id _ (softDeleteBatch_ids_nodup db now hnd)]
  have hfind : (softDeleteBatch now db.posts).find? (fun q => q.id == p.id) =
      some (softMark now p) := by
    unfold softDeleteBatch
    rw [find?_map_post (softMark now) (softMark_id now) p.id,
      find?_of_mem_nodup db.posts p hnd hmem]
    rfl
  rw [hfind]
  cases h : qualifiesHard now (softMark now p) with
  | true => simp [h]
  | false => simp [h]

/-- A qualifying post witnesses that the soft-delete batch is nonempty. -/
lemma batch_nonempty_of_qual (db : DB) (now : Int) (p : Post)
    (hmem : p ∈ db.posts) (hq : qualifiesSoft now p = true) :
    ¬ db.posts.filter (qualifiesSoft now) = [] := by
  intro hE
  have := List.filter_eq_nil_iff.mp hE p hmem
  exact this hq

/-- Full state characterization of one sweep for an active post. -/
lemma postState_cleanup_active (db : DB) (now : Int) (p : Post)
    (hnd : (db.posts.map Post.id).Nodup) (hmem : p ∈ db.posts)
    (hact : p.isActive = true) :
    postState (cleanupExpiredPosts db now) p.id =
      (if p.createdAt < now - sevenDaysMs then PState.purged
       else if p.createdAt < now - dayMs then PState.expired
       else PState.active) := by
  by_cases h24 : p.createdAt < now - dayMs
  · have hq : qualifiesSoft now p = true := by
      unfold qualifiesSoft
      simp [h24, hact]
    have hbatch := batch_nonempty_of_qual db now p hmem hq
    have hsm := softMark_of_qual now p hact h24
    have hfind := find?_sweep_posts db now p hnd hmem hbatch
    rw [hsm] at hfind
    by_cases h7 : p.createdAt < now - sevenDaysMs
    · have hqh : qualifiesHard now { p with isActive := false } = true := by
        unfold qualifiesHard
        simp [h7]
      rw [hqh] at hfind
      simp only [if_true] at hfind
      simp [postState, hfind, h7]
    · have hqh : qualifiesHard now { p with isActive := false } = false := by
        unfold qualifiesHard
        simp [h7]
      rw [hqh] at hfind
      simp only [Bool.false_eq_true, if_false] at hfind
      simp [postState, hfind, h7, h24]
  · have h7 : ¬ p.createdAt < now - sevenDaysMs := by
      intro hc
      exact h24 (lt_of_lt_of_le hc (cutoff7_le_cutoff24 now))
    have hsm := softMark_of_young now p h24
    by_cases hbatch : db.posts.filter (qualifiesSoft now) = []
    · rw [cleanup_of_empty db now hbatch]
      simp [postState, find?_of_mem_nodup db.posts p hnd hmem, hact, h7, h24]
    · have hfind := find?_sweep_posts db now p hnd hmem hbatch
      rw [hsm] at hfind
      have hqh : qualifiesHard now p = false := by
        unfold qualifiesHard
        simp [hact]
      rw [hqh] at hfind
      simp only [Bool.false_eq_true, if_false] at hfind
      simp [postState, hfind, hact, h7, h24]

/-- Full state characterization of a nonempty sweep for an inactive
post. -/
lemma postState_cleanup_inactive (db : DB) (now : Int) (p : Post)
    (hnd : (db.posts.map Post.id).Nodup) (hmem : p ∈ db.posts)
    (hina : p.isActive = false)
    (hbatch : ¬ db.posts.filter (qualifiesSoft now) = []) :
    postState (cleanupExpiredPosts db now) p.id =
      (if p.createdAt < now - sevenDaysMs then PState.purged else PState.expired) := by
  have hsm := softMark_of_inactive now p hina
  have hfind := find?_sweep_posts db now p hnd hmem hbatch
  rw [hsm] at hfind
  by_cases h7 : p.createdAt < now - sevenDaysMs
  · have hqh : qualifiesHard now p = true := by
      unfold qualifiesHard
      simp [h7, hina]
    rw [hqh] at hfind
    simp only [if_true] at hfind
    simp [postState, hfind, h7]
  · have hqh : qualifiesHard now p = false := by
      unfold qualifiesHard
      simp [h7]
    rw [hqh] at hfind
    simp only [Bool.false_eq_true, if_false] at hfind
    simp [postState, hfind, hina, h7]

/-- TTL state characterization (kept iff the 86400-second deadline has
not yet passed). -/
lemma postState_ttl (db : DB) (now : Int) (p : Post)
    (hnd : (db.posts.map Post.id).Nodup) (hmem : p ∈ db.posts) :
    postState (ttlReap db now) p.id =
      (if p.expiresAt + dayMs ≤ now then PState.purged
       else if p.isActive then PState.active else PState.expired) := by
  unfold postState ttlReap
  simp only
  rw [find?_filter_nodup _ p.id db.posts hnd, find?_of_mem_nodup db.posts p hnd hmem]
  by_cases h : p.expiresAt + dayMs ≤ now
  · simp [h]
  · simp [h]

/-- The counter overwrite never changes a user's id. -/
lemma setPostsCountFun_id (a : Nat) (v : Int) (u : User) :
    (if u.id == a then { u with postsCount := v } else u).id = u.id := by
  split <;> rfl

/-- The counter overwrite leaves the id column unchanged. -/
lemma setPostsCount_ids (us : List User) (a : Nat) (v : Int) :
    (setPostsCount us a v).map User.id = us.map User.id := by
  unfold setPostsCount
  rw [List.map_map]
  apply List.map_congr_left
  intro u _
  exact setPostsCountFun_id a v u

/-- find? over an id-preserving user map. -/
lemma find?_map_user (f : User → User) (hid : ∀ u, (f u).id = u.id) (A : Nat) :
    ∀ us : List User,
      (us.map f).find? (fun u => u.id == A) = (us.find? (fun u => u.id == A)).map f
  | [] => rfl
  | a :: t => by
    simp only [List.map_cons, List.find?]
    rw [hid a]
    cases h : (a.id == A) with
    | true => simp
    | false => simpa using find?_map_user f hid A t

/-- Overwriting an existing user's counter makes a later read return the
written value. -/
lemma userCount_set_self (us : List User) (A : Nat) (v : Int)
    (hA : A ∈ us.map User.id) :
    userCount (setPostsCount us A v) A = some v := by
  unfold userCount setPostsCount
  rw [find?_map_user _ (setPostsCountFun_id A v) A]
  cases hf : us.find? (fun u => u.id == A) with
  | none =>
    rw [List.find?_eq_none] at hf
    obtain ⟨u, hu, hid⟩ := List.mem_map.mp hA
    exact absurd (by simpa using hid) (by simpa using hf u hu)
  | some u =>
    have hid := List.find?_some hf
    simp only [Option.map_some']
    have : (u.id == A) = true := hid
    simp [this]

/-- Overwriting a different user's counter leaves a read unchanged. -/
lemma userCount_set_other (us : List User) (a A : Nat) (v : Int) (h : a ≠ A) :
    userCount (setPostsCount us a v) A = userCount us A := by
  unfold userCount setPostsCount
  rw [find?_map_user _ (setPostsCountFun_id a v) A]
  cases hf : us.find? (fun u => u.id == A) with
  | none => rfl
  | some u =>
    have hid := List.find?_some hf
    have hne : (u.id == a) = false := by
      have : u.id = A := by simpa using hid
      simp [this, Ne.symm h]
    simp only [Option.map_some']
    simp [hne]

/-- A fold of counter overwrites for other authors leaves a read
unchanged. -/
lemma userCount_foldl_not_mem (g : Nat → Int) :
    ∀ (L : List Nat) (us : List User) (A : Nat), A ∉ L →
      userCount (L.foldl (fun acc a => setPostsCount acc a (g a)) us) A = userCount us A
  | [], _, _, _ => rfl
  | a :: t, us, A, h => by
    have hne : a ≠ A := fun hc => h (hc ▸ List.mem_cons_self a t)
    have ht : A ∉ t := fun hc => h (List.mem_cons_of_mem a hc)
    simp only [List.foldl_cons]
    rw [userCount_foldl_not_mem g t _ A ht, userCount_set_other us a A (g a) hne]

/-- A fold of counter overwrites covering an existing author sets that
author's counter to the recomputed value, whatever it was before. -/
lemma userCount_foldl_mem (g : Nat → Int) :
    ∀ (L : List Nat) (us : List User) (A : Nat),
      A ∈ us.map User.id → A ∈ L →
      userCount (L.foldl (fun acc a => setPostsCount acc a (g a)) us) A = some (g A)
  | [], _, _, _, hL => absurd hL (List.not_mem_nil _)
  | a :: t, us, A, hus, hL => by
    simp only [List.foldl_cons]
    by_cases ht : A ∈ t
    · exact userCount_foldl_mem g t _ A (by rw [setPostsCount_ids]; exact hus) ht
    · have ha : A = a := by
        rcases List.mem_cons.mp hL with h | h
        · exact h
        · exact absurd h ht
      subst ha
      rw [userCount_foldl_not_mem g t _ A ht]
      exact userCount_set_self us A (g A) hus

/-- The hard delete removes only inactive documents, so active-post
counts are unaffected. -/
lemma countActive_hard (now : Int) (posts : List Post) (a : Nat) :
    countActive (hardDeleteBatch now posts) a = countActive posts a := by
  unfold countActive hardDeleteBatch
  rw [List.filter_filter]
  congr 1
  apply List.filter_congr
  intro x _
  cases hx : x.isActive with
  | true => simp [qualifiesHard, hx]
  | false => simp [hx]

/-- softMark can only deactivate, never activate. -/
lemma softMark_active_imp (now : Int) (p : Post) :
    (softMark now p).isActive = true → p.isActive = true := by
  unfold softMark
  split
  · intro h
    exact absurd h (by simp)
  · exact id

/-- State after the updateMany write alone, in terms of the pre-write
search. -/
lemma postState_softDeleteBatch (db : DB) (now : Int) (pid : Nat) :
    postState (dbSoftDelete db now) pid =
      match db.posts.find? (fun q => q.id == pid) with
      | none => PState.purged
      | some p => if (softMark now p).isActive then PState.active else PState.expired := by
  unfold postState dbSoftDelete softDeleteBatch
  simp only
  rw [find?_map_post (softMark now) (softMark_id now) pid]
  cases hf : db.posts.find? (fun q => q.id == pid) <;> rfl

/-- State after the deleteMany write alone, in terms of the pre-write
search. -/
lemma postState_dbHardDelete (db : DB) (now : Int) (pid : Nat)
    (hnd : (db.posts.map Post.id).Nodup) :
    postState (dbHardDelete db now) pid =
      match db.posts.find? (fun q => q.id == pid) with
      | none => PState.purged
      | some p => if qualifiesHard now p then PState.purged
                  else if p.isActive then PState.active else PState.expired := by
  unfold postState dbHardDelete hardDeleteBatch
  simp only
  rw [find?_filter_nodup _ pid db.posts hnd]
  cases hf : db.posts.find? (fun q => q.id == pid) with
  | none => rfl
  | some p =>
    cases h : qualifiesHard now p with
    | true => simp [h]
    | false => simp [h]

/-- A findOneAndUpdate with an id-preserving payload either leaves the
search result unchanged or maps the found record through the payload. -/
lemma find?_updateFirst_cases (pred : Post → Bool) (f : Post → Post)
    (hid : ∀ p, (f p).id = p.id) (pid : Nat) :
    ∀ l : List Post,
      (updateFirst l pred f).find? (fun q => q.id == pid) =
          l.find? (fun q => q.id == pid) ∨
        ∃ p, l.find? (fun q => q.id == pid) = some p ∧
          (updateFirst l pred f).find? (fun q => q.id == pid) = some (f p)
  | [] => Or.inl rfl
  | a :: t => by
    unfold updateFirst
    cases hpa : pred a with
    | true =>
      simp only [if_pos]
      cases ha : (a.id == pid) with
      | true =>
        refine Or.inr ⟨a, ?_, ?_⟩
        · simp [List.find?, ha]
        · have : ((f a).id == pid) = true := by
            rw [hid a]
            exact ha
          simp [List.find?, this]
      | false =>
        have : ((f a).id == pid) = false := by
          rw [hid a]
          exact ha
        refine Or.inl ?_
        simp only [List.find?, this, ha]
    | false =>
      simp only [Bool.false_eq_true, if_false]
      cases ha : (a.id == pid) with
      | true =>
        simp [List.find?, ha]
      | false =>
        simp only [List.find?, ha]
        exact find?_updateFirst_cases pred f hid pid t

/-- Every file surviving the thumbnail-deletion fold was already
present. -/
lemma mem_deleteThumbs (filename : String) :
    ∀ (szs : List (String × Dim)) (fs : List FSFile) (f : FSFile),
      f ∈ deleteThumbs filename szs fs → f ∈ fs
  | [], _, _, h => h
  | s :: rest, fs, f, h => by
    have h2 : f ∈ deleteThumbs filename rest
        (fs.filter (fun g => !(g.name == thumbName filename s.1))) := h
    exact List.mem_of_mem_filter (mem_deleteThumbs filename rest _ f h2)

/-- The thumbnail-deletion fold removes the derivative of every size it
visits. -/
lemma deleteThumbs_removes (filename : String) :
    ∀ (szs : List (String × Dim)) (fs : List FSFile) (sz : String × Dim),
      sz ∈ szs → ∀ f ∈ deleteThumbs filename szs fs, f.name ≠ thumbName filename sz.1
  | [], _, sz, hsz => absurd hsz (List.not_mem_nil sz)
  | s :: rest, fs, sz, hsz => by
    intro f hf heq
    rcases List.mem_cons.mp hsz with rfl | hsz2
    · have h2 : f ∈ deleteThumbs filename rest
          (fs.filter (fun g => !(g.name == thumbName filename sz.1))) := hf
      have hf2 := mem_deleteThumbs filename rest _ f h2
      have := (List.mem_filter.mp hf2).2
      rw [heq] at this
      simp at this
    · have h2 : f ∈ deleteThumbs filename rest
          (fs.filter (fun g => !(g.name == thumbName filename s.1))) := hf
      exact deleteThumbs_removes filename rest _ sz hsz2 f h2 heq

/-- C1 counterexample: at a sweep taken 8 days after creation, an
Expired post of age at least 7 days keeps its record, because no Active
post qualifies for the Active-to-Expired batch and the sweep returns
before the purge phase — the purge scan does not run on every sweep. -/
theorem purge_skipped_when_no_expiry_batch :
    (8 * dayMs) - stalePost.createdAt ≥ sevenDaysMs ∧
    stalePost.isActive = false ∧
    postState ⟨[stalePost], [⟨7, 0⟩]⟩ 2 = PState.expired ∧
    cleanupExpiredPosts ⟨[stalePost], [⟨7, 0⟩]⟩ (8 * dayMs) = ⟨[stalePost], [⟨7, 0⟩]⟩ := by
  decide

/-- C1 (amended): on a sweep whose Active-to-Expired batch is nonempty,
every Expired post strictly older than 7 days has its record permanently
removed; the sweep performs no file deletion whatsoever (the record is
dropped by Post.deleteMany alone and no Reaper is invoked), so the
post's image files survive the purge. -/
theorem purge_on_nonempty_batch (s : Sys) (now : Int) (p : Post)
    (hnd : (s.db.posts.map Post.id).Nodup)
    (hbatch : ¬ s.db.posts.filter (qualifiesSoft now) = [])
    (hmem : p ∈ s.db.posts) (hina : p.isActive = false)
    (hage : p.createdAt < now - sevenDaysMs) :
    postState (sweepSys s now).db p.id = PState.purged ∧
    (sweepSys s now).files = s.files := by
  constructor
  · show postState (cleanupExpiredPosts s.db now) p.id = _
    rw [postState_cleanup_inactive s.db now p hnd hmem hina hbatch]
    simp [hage]
  · rfl

/-- Witness for the amended C1 at a concrete two-post store. -/
theorem purge_on_nonempty_batch_witness :
    postState
        (sweepSys ⟨⟨[freshPost, stalePost], [⟨7, 1⟩]⟩, ["b.jpg"]⟩ (8 * dayMs)).db
        stalePost.id = PState.purged ∧
    (sweepSys ⟨⟨[freshPost, stalePost], [⟨7, 1⟩]⟩, ["b.jpg"]⟩ (8 * dayMs)).files =
      ["b.jpg"] :=
  purge_on_nonempty_batch _ _ _ (by decide) (by decide) (by decide) (by decide) (by decide)

/-- C2 counterexample: deleting a stored asset succeeds and removes all
its files, but a second DELETE of the same id answers 404, not 200 — the
id was known, yet the endpoint reports not-found once the main file is
gone. -/
theorem second_delete_of_same_image_returns_404 :
    (deleteImage sampleFiles "a.jpg").2 = ImgStatus.ok ∧
    (deleteImage sampleFiles "a.jpg").1 = [] ∧
    (deleteImage (deleteImage sampleFiles "a.jpg").1 "a.jpg").2 = ImgStatus.notFound := by
  decide

/-- C2 (amended): DELETE answers 404 exactly when the main file is
currently absent — including ids whose files an earlier delete already
removed — and otherwise answers 200 after removing the main file and
every profile thumbnail, so no file of the asset remains after a
successful delete. -/
theorem delete_image_status_and_files (files : List FSFile) (filename : String) :
    ((¬ ∃ f ∈ files, f.name = filename) →
      deleteImage files filename = (files, ImgStatus.notFound)) ∧
    ((∃ f ∈ files, f.name = filename) →
      (deleteImage files filename).2 = ImgStatus.ok ∧
      (∀ f ∈ (deleteImage files filename).1, f.name ≠ filename) ∧
      (∀ sz ∈ thumbnailSizes, ∀ f ∈ (deleteImage files filename).1,
        f.name ≠ thumbName filename sz.1)) := by
  constructor
  · intro hno
    have hfalse : files.any (fun f => f.name == filename) = false := by
      rw [← Bool.not_eq_true]
      intro hc
      rw [List.any_eq_true] at hc
      obtain ⟨f, hf, hfn⟩ := hc
      exact hno ⟨f, hf, by simpa using hfn⟩
    simp [deleteImage, hfalse]
  · intro hex
    have htrue : files.any (fun f => f.name == filename) = true := by
      rw [List.any_eq_true]
      obtain ⟨f, hf, hfn⟩ := hex
      exact ⟨f, hf, by simpa using hfn⟩
    have hdi : deleteImage files filename =
        (deleteThumbs filename thumbnailSizes
          (files.filter (fun f => !(f.name == filename))), ImgStatus.ok) := by
      simp [deleteImage, htrue]
    rw [hdi]
    refine ⟨rfl, ?_, ?_⟩
    · intro f hf heq
      have hf1 := mem_deleteThumbs filename thumbnailSizes _ f hf
      have := (List.mem_filter.mp hf1).2
      rw [heq] at this
      simp at this
    · intro sz hsz f hf
      exact deleteThumbs_removes filename thumbnailSizes _ sz hsz f hf

/-- Witness for the amended C2 on the sample asset. -/
theorem delete_image_status_and_files_witness :
    (deleteImage sampleFiles "a.jpg").2 = ImgStatus.ok ∧
    (∀ f ∈ (deleteImage sampleFiles "a.jpg").1, f.name ≠ "a.jpg") ∧
    (∀ sz ∈ thumbnailSizes, ∀ f ∈ (deleteImage sampleFiles "a.jpg").1,
      f.name ≠ thumbName "a.jpg" sz.1) :=
  (delete_image_status_and_files sampleFiles "a.jpg").2 (by decide)

/-- C3: a failed ingestion is not rolled back.  With the large profile
failing, processImage reports the error, yet the persisted original and
the small and medium derivatives all remain and are served by lookups;
the repository's own cleanupFiles — which would have removed every one
of them — is never invoked by any code path. -/
theorem failed_ingestion_keeps_partial_artifacts :
    (processImage [⟨"u1.png", .original "png"⟩] "u1.png" (fun s => s == "large")).2
        = false ∧
    getImage (processImage [⟨"u1.png", .original "png"⟩] "u1.png"
        (fun s => s == "large")).1 "u1.png" = ImgStatus.ok ∧
    getImage (processImage [⟨"u1.png", .original "png"⟩] "u1.png"
        (fun s => s == "large")).1 "u1_small.png" = ImgStatus.ok ∧
    getImage (processImage [⟨"u1.png", .original "png"⟩] "u1.png"
        (fun s => s == "large")).1 "u1_medium.png" = ImgStatus.ok ∧
    getImage (processImage [⟨"u1.png", .original "png"⟩] "u1.png"
        (fun s => s == "large")).1 "u1_large.png" = ImgStatus.notFound ∧
    cleanupFiles (processImage [⟨"u1.png", .original "png"⟩] "u1.png"
        (fun s => s == "large")).1 "u1.png" = [] := by
  decide

/-- C4 counterexample: a post soft-deleted at the 24-hour mark loses its
record to the TTL index two days after creation, far before the 7-day
purge — a mechanism other than the sweep removes an Expired post's
record early. -/
theorem ttl_index_purges_expired_record_at_48h :
    (2 * dayMs) - stalePost.createdAt < sevenDaysMs ∧
    stalePost.isActive = false ∧
    postState (ttlReap ⟨[stalePost], [⟨7, 0⟩]⟩ (2 * dayMs)) 2 = PState.purged := by
  decide

/-- C4 (amended): the sweep itself never removes the record of any post
younger than 7 days — Active or Expired, so in particular an Expired
post in its 24h-to-7d window survives every sweep with its record
intact and the upload directory untouched — but the record does not
persist until the 7-day purge: the schema's TTL index removes any record
exactly once `expiresAt + 24h ≤ now`, about 48 hours after creation. -/
theorem soft_delete_keeps_record_until_ttl :
    (∀ (s : Sys) (now : Int) (p : Post),
        (s.db.posts.map Post.id).Nodup → p ∈ s.db.posts →
        ¬ p.createdAt < now - sevenDaysMs →
        postState (sweepSys s now).db p.id ≠ PState.purged ∧
          (sweepSys s now).files = s.files) ∧
    (∀ (db : DB) (now : Int) (p : Post),
        (db.posts.map Post.id).Nodup → p ∈ db.posts →
        (postState (ttlReap db now) p.id = PState.purged ↔ p.expiresAt + dayMs ≤ now)) := by
  constructor
  · intro s now p hnd hmem h7
    refine ⟨?_, rfl⟩
    show postState (cleanupExpiredPosts s.db now) p.id ≠ _
    cases hact : p.isActive with
    | true =>
      rw [postState_cleanup_active s.db now p hnd hmem hact]
      by_cases h24 : p.createdAt < now - dayMs
      · simp [h7, h24]
      · simp [h7, h24]
    | false =>
      by_cases hbatch : s.db.posts.filter (qualifiesSoft now) = []
      · rw [cleanup_of_empty s.db now hbatch]
        simp [postState, find?_of_mem_nodup s.db.posts p hnd hmem, hact]
      · rw [postState_cleanup_inactive s.db now p hnd hmem hact hbatch]
        simp [h7]
  · intro db now p hnd hmem
    rw [postState_ttl db now p hnd hmem]
    by_cases h : p.expiresAt + dayMs ≤ now
    · simp [h]
    · by_cases ha : p.isActive = true
      · simp [h, ha]
      · simp [h, ha]

/-- Witness for the amended C4: the two-day-old Expired record survives
a sweep whose batch expires the active post, and the same stale record
falls to the TTL deadline at 48 hours. -/
theorem soft_delete_keeps_record_until_ttl_witness :
    (postState (sweepSys ⟨⟨[post0, stalePost], [⟨7, 1⟩]⟩, ["a.jpg"]⟩ (2 * dayMs)).db
        stalePost.id ≠ PState.purged ∧
      (sweepSys ⟨⟨[post0, stalePost], [⟨7, 1⟩]⟩, ["a.jpg"]⟩ (2 * dayMs)).files = ["a.jpg"]) ∧
    (postState (ttlReap ⟨[stalePost], [⟨7, 0⟩]⟩ (2 * dayMs)) stalePost.id = PState.purged ↔
      stalePost.expiresAt + dayMs ≤ 2 * dayMs) :=
  ⟨soft_delete_keeps_record_until_ttl.1
      ⟨⟨[post0, stalePost], [⟨7, 1⟩]⟩, ["a.jpg"]⟩ (2 * dayMs) stalePost
      (by decide) (by decide) (by decide),
   soft_delete_keeps_record_until_ttl.2 ⟨[stalePost], [⟨7, 0⟩]⟩ (2 * dayMs) stalePost
      (by decide) (by decide)⟩

/-- C5 counterexample: a 100 by 100 source is upscaled — the small
profile's cover fit produces a 150 by 150 derivative, larger than the
source in both dimensions. -/
theorem cover_fit_upscales_small_source :
    derivativeDims 100 100 =
      [("small", (150, 150)), ("medium", (400, 400)), ("large", (800, 600))] ∧
    150 > 100 := by
  decide

/-- C5 (amended): every derivative has exactly its profile's configured
dimensions — cover fit center-crops to the target, so a 1000 by 800
source yields exactly 150 by 150, 400 by 400 and 800 by 600, and a
source smaller than a target is upscaled to the same fixed sizes rather
than capped at the source dimensions. -/
theorem derivatives_have_exact_profile_dims (srcW srcH : Nat) :
    derivativeDims srcW srcH =
      [("small", (150, 150)), ("medium", (400, 400)), ("large", (800, 600))] := rfl

/-- C6 counterexample: a post whose age is exactly 24 hours — satisfying
the claimed threshold `now - createdAt ≥ 24h` — is still Active after
the sweep, because the query uses the strict `createdAt < now - 24h`. -/
theorem post_at_exactly_24h_not_expired :
    dayMs - post0.createdAt ≥ dayMs ∧
    post0.isActive = true ∧
    postState (cleanupExpiredPosts ⟨[post0], [⟨7, 1⟩]⟩ dayMs) 1 = PState.active := by
  decide

/-- C6 (amended): a sweep moves an Active post out of Active exactly
when `now - createdAt > 24h` strictly — at exactly 24 hours the post
remains Active; over the threshold it is Expired, unless its age also
strictly exceeds 7 days, in which case the same sweep hard-deletes it. -/
theorem active_expiry_threshold_strict (db : DB) (now : Int) (p : Post)
    (hnd : (db.posts.map Post.id).Nodup) (hmem : p ∈ db.posts)
    (hact : p.isActive = true) :
    postState (cleanupExpiredPosts db now) p.id =
      (if p.createdAt < now - sevenDaysMs then PState.purged
       else if p.createdAt < now - dayMs then PState.expired
       else PState.active) :=
  postState_cleanup_active db now p hnd hmem hact

/-- Witness for the amended C6 one millisecond past the threshold. -/
theorem active_expiry_threshold_strict_witness :
    postState (cleanupExpiredPosts ⟨[post0], [⟨7, 1⟩]⟩ (dayMs + 1)) post0.id =
      (if post0.createdAt < (dayMs + 1) - sevenDaysMs then PState.purged
       else if post0.createdAt < (dayMs + 1) - dayMs then PState.expired
       else PState.active) :=
  active_expiry_threshold_strict _ _ _ (by decide) (by decide) (by decide)

/-- C7: after a sweep that expires at least one post of an author, the
stored counter of that author equals the exact number of the author's
Active posts in the post-sweep store, whatever value the counter held
before — the synchronizer recomputes and overwrites. -/
theorem author_counter_recomputed_after_sweep (db : DB) (now : Int) (p : Post)
    (hmem : p ∈ db.posts) (hq : qualifiesSoft now p = true)
    (hA : p.author ∈ db.users.map User.id) :
    userCount (cleanupExpiredPosts db now).users p.author =
      some ((countActive (cleanupExpiredPosts db now).posts p.author : Nat) : Int) := by
  have hbatch := batch_nonempty_of_qual db now p hmem hq
  rw [cleanup_of_nonempty db now hbatch]
  have hmemA : p.author ∈ ((db.posts.filter (qualifiesSoft now)).map Post.author).dedup := by
    rw [List.mem_dedup]
    exact List.mem_map_of_mem Post.author (List.mem_filter.mpr ⟨hmem, hq⟩)
  rw [userCount_foldl_mem _ _ _ _ hA hmemA]
  rw [countActive_hard]

/-- Witness for C7: author 7's drifted counter 42 is overwritten with
the true Active count. -/
theorem author_counter_recomputed_after_sweep_witness :
    userCount (cleanupExpiredPosts ⟨[post0], [⟨7, 42⟩]⟩ (2 * dayMs)).users post0.author =
      some ((countActive (cleanupExpiredPosts ⟨[post0], [⟨7, 42⟩]⟩ (2 * dayMs)).posts
        post0.author : Nat) : Int) :=
  author_counter_recomputed_after_sweep _ _ _ (by decide) (by decide) (by decide)

/-- C8: post state is monotone under every operation, at the granularity
of the individual MongoDB writes each operation issues.  The sweep's
updateMany never removes a record (so it cannot purge), its deleteMany
leaves Active posts Active (so a post is Expired before it is Purged),
a sweep is exactly those two writes in sequence (or a no-op), the whole
sweep never decreases the state rank, the explicit delete only
deactivates the matched record and never removes one, and the post
update leaves the lifecycle state exactly as it was — hence the observed
state sequence of any post is a prefix of Active, Expired, Purged, with
no reverse transition and no recreation of a purged post. -/
theorem post_state_monotonic (db : DB) (now upNow : Int) (postId userId pid : Nat)
    (content category : String) (tags : List String)
    (hnd : (db.posts.map Post.id).Nodup) :
    (pOrd (postState db pid) ≤ pOrd (postState (dbSoftDelete db now) pid) ∧
      (postState (dbSoftDelete db now) pid = PState.purged →
        postState db pid = PState.purged)) ∧
    (pOrd (postState db pid) ≤ pOrd (postState (dbHardDelete db now) pid) ∧
      (postState db pid = PState.active →
        postState (dbHardDelete db now) pid = PState.active)) ∧
    (cleanupExpiredPosts db now = db ∨
      (cleanupExpiredPosts db now).posts = (dbHardDelete (dbSoftDelete db now) now).posts) ∧
    pOrd (postState db pid) ≤ pOrd (postState (cleanupExpiredPosts db now) pid) ∧
    (pOrd (postState db pid) ≤ pOrd (postState (deletePost db postId userId).1 pid) ∧
      (postState (deletePost db postId userId).1 pid = PState.purged →
        postState db pid = PState.purged)) ∧
    postState (updatePost db postId userId content category tags upNow).1 pid =
      postState db pid := by
  have hsoft : pOrd (postState db pid) ≤ pOrd (postState (dbSoftDelete db now) pid) ∧
      (postState (dbSoftDelete db now) pid = PState.purged →
        postState db pid = PState.purged) := by
    rw [postState_softDeleteBatch db now pid]
    unfold postState
    cases hf : db.posts.find? (fun q => q.id == pid) with
    | none => exact ⟨le_refl _, fun _ => rfl⟩
    | some p =>
      dsimp only
      cases ha : p.isActive with
      | true =>
        constructor
        · cases hb : (softMark now p).isActive <;> simp [pOrd, ha, hb]
        · intro hcontra
          by_cases hb : (softMark now p).isActive = true
          · simp [hb] at hcontra
          · simp [hb] at hcontra
      | false =>
        rw [softMark_of_inactive now p ha, ha]
        exact ⟨le_refl _, fun h => h⟩
  have hhardGen : ∀ (db2 : DB), ((db2.posts.map Post.id).Nodup) →
      (pOrd (postState db2 pid) ≤ pOrd (postState (dbHardDelete db2 now) pid) ∧
        (postState db2 pid = PState.active →
          postState (dbHardDelete db2 now) pid = PState.active)) := by
    intro db2 hnd2
    rw [postState_dbHardDelete db2 now pid hnd2]
    unfold postState
    cases hf : db2.posts.find? (fun q => q.id == pid) with
    | none => exact ⟨le_refl _, fun h => h⟩
    | some p =>
      cases ha : p.isActive with
      | true =>
        have hq : qualifiesHard now p = false := by
          unfold qualifiesHard
          simp [ha]
        simp [hq, ha, pOrd]
      | false =>
        cases hq : qualifiesHard now p with
        | true => simp [hq, ha, pOrd]
        | false => simp [hq, ha, pOrd]
  have hdecomp : cleanupExpiredPosts db now = db ∨
      (cleanupExpiredPosts db now).posts = (dbHardDelete (dbSoftDelete db now) now).posts := by
    by_cases hbatch : db.posts.filter (qualifiesSoft now) = []
    · exact Or.inl (cleanup_of_empty db now hbatch)
    · refine Or.inr ?_
      rw [cleanup_of_nonempty db now hbatch]
      rfl
  have hsweep : pOrd (postState db pid) ≤ pOrd (postState (cleanupExpiredPosts db now) pid) := by
    rcases hdecomp with h | h
    · rw [h]
    · have heq : postState (cleanupExpiredPosts db now) pid =
          postState (dbHardDelete (dbSoftDelete db now) now) pid := by
        unfold postState
        rw [h]
      rw [heq]
      have hnd2 : ((dbSoftDelete db now).posts.map Post.id).Nodup :=
        softDeleteBatch_ids_nodup db now hnd
      exact le_trans hsoft.1 (hhardGen (dbSoftDelete db now) hnd2).1
  have hdel : pOrd (postState db pid) ≤ pOrd (postState (deletePost db postId userId).1 pid) ∧
      (postState (deletePost db postId userId).1 pid = PState.purged →
        postState db pid = PState.purged) := by
    unfold deletePost
    cases hm : db.posts.find? (fun p => p.id == postId && p.author == userId && p.isActive) with
    | none => exact ⟨le_refl _, fun h => h⟩
    | some q =>
      simp only
      have hid : ∀ p : Post, (markInactive p).id = p.id := fun p => rfl
      rcases find?_updateFirst_cases
          (fun p => p.id == postId && p.author == userId && p.isActive)
          markInactive hid pid db.posts with hcase | ⟨r, hr, hr2⟩
      · have heq : postState
            ⟨updateFirst db.posts
                (fun p => p.id == postId && p.author == userId && p.isActive)
                markInactive,
              db.users.map
                (fun u => if u.id == userId then { u with postsCount := u.postsCount - 1 }
                 else u)⟩ pid =
            postState db pid := by
          unfold postState
          rw [hcase]
        rw [heq]
        exact ⟨le_refl _, fun h => h⟩
      · have heq : postState
            ⟨updateFirst db.posts
                (fun p => p.id == postId && p.author == userId && p.isActive)
                markInactive,
              db.users.map
                (fun u => if u.id == userId then { u with postsCount := u.postsCount - 1 }
                 else u)⟩ pid =
            PState.expired := by
          unfold postState
          rw [hr2]
          rfl
        have hbefore : postState db pid =
            (if r.isActive then PState.active else PState.expired) := by
          unfold postState
          rw [hr]
        rw [heq, hbefore]
        constructor
        · cases hra : r.isActive <;> simp [pOrd]
        · intro hcontra
          exact absurd hcontra (by decide)
  have hupd : postState (updatePost db postId userId content category tags upNow).1 pid =
      postState db pid := by
    unfold updatePost
    cases hm : db.posts.find? (fun p => p.id == postId && p.author == userId && p.isActive) with
    | none => rfl
    | some q =>
      simp only
      have hid : ∀ p : Post, (updContent content category tags upNow p).id = p.id :=
        fun p => rfl
      rcases find?_updateFirst_cases
          (fun p => p.id == postId && p.author == userId && p.isActive)
          (updContent content category tags upNow) hid pid db.posts with hcase | ⟨r, hr, hr2⟩
      · unfold postState
        simp only
        rw [hcase]
      · unfold postState
        simp only
        rw [hr2, hr]
        rfl
  exact ⟨hsoft, hhardGen db hnd, hdecomp, hsweep, hdel, hupd⟩

/-- Witness for C8 at a concrete store carrying an active and an
expired post. -/
theorem post_state_monotonic_witness :
    (pOrd (postState ⟨[post0, stalePost], [⟨7, 1⟩]⟩ 1) ≤
        pOrd (postState (dbSoftDelete ⟨[post0, stalePost], [⟨7, 1⟩]⟩ (2 * dayMs)) 1) ∧
      (postState (dbSoftDelete ⟨[post0, stalePost], [⟨7, 1⟩]⟩ (2 * dayMs)) 1 = PState.purged →
        postState ⟨[post0, stalePost], [⟨7, 1⟩]⟩ 1 = PState.purged)) ∧
    (pOrd (postState ⟨[post0, stalePost], [⟨7, 1⟩]⟩ 1) ≤
        pOrd (postState (dbHardDelete ⟨[post0, stalePost], [⟨7, 1⟩]⟩ (2 * dayMs)) 1) ∧
      (postState ⟨[post0, stalePost], [⟨7, 1⟩]⟩ 1 = PState.active →
        postState (dbHardDelete ⟨[post0, stalePost], [⟨7, 1⟩]⟩ (2 * dayMs)) 1 =
          PState.active)) ∧
    (cleanupExpiredPosts ⟨[post0, stalePost], [⟨7, 1⟩]⟩ (2 * dayMs) =
        ⟨[post0, stalePost], [⟨7, 1⟩]⟩ ∨
      (cleanupExpiredPosts ⟨[post0, stalePost], [⟨7, 1⟩]⟩ (2 * dayMs)).posts =
        (dbHardDelete (dbSoftDelete ⟨[post0, stalePost], [⟨7, 1⟩]⟩ (2 * dayMs))
          (2 * dayMs)).posts) ∧
    pOrd (postState ⟨[post0, stalePost], [⟨7, 1⟩]⟩ 1) ≤
      pOrd (postState (cleanupExpiredPosts ⟨[post0, stalePost], [⟨7, 1⟩]⟩ (2 * dayMs)) 1) ∧
    (pOrd (postState ⟨[post0, stalePost], [⟨7, 1⟩]⟩ 1) ≤
        pOrd (postState (deletePost ⟨[post0, stalePost], [⟨7, 1⟩]⟩ 1 7).1 1) ∧
      (postState (deletePost ⟨[post0, stalePost], [⟨7, 1⟩]⟩ 1 7).1 1 = PState.purged →
        postState ⟨[post0, stalePost], [⟨7, 1⟩]⟩ 1 = PState.purged)) ∧
    postState (updatePost ⟨[post0, stalePost], [⟨7, 1⟩]⟩ 1 7 "n" "Ideas" [] (3 * dayMs)).1 1 =
      postState ⟨[post0, stalePost], [⟨7, 1⟩]⟩ 1 :=
  post_state_monotonic ⟨[post0, stalePost], [⟨7, 1⟩]⟩ (2 * dayMs) (3 * dayMs) 1 7 1
    "n" "Ideas" [] (by decide)

/-- C9: the batch does not persist deletedAt.  The service's updateMany
payload names `deletedAt: new Date()`, but src/models/Post.js declares
no `deletedAt` path and Mongoose's default strict mode strips unknown
paths from update payloads, so the record a sweep transitions is
persisted with `isActive: false` only — evaluated at the day-two sweep
of the day-zero post, the stored record is exactly the original with
the flag cleared, and a read of its `deletedAt` yields nothing rather
than the sweep time. -/
theorem expired_batch_does_not_persist_deletedAt :
    (cleanupExpiredPosts ⟨[post0], [⟨7, 1⟩]⟩ (2 * dayMs)).posts.find?
        (fun q => q.id == post0.id) =
      some { post0 with isActive := false } ∧
    ((cleanupExpiredPosts ⟨[post0], [⟨7, 1⟩]⟩ (2 * dayMs)).posts.find?
        (fun q => q.id == post0.id)).map Post.deletedAt = some none := by
  decide

/-- C10: every profile derivative written by the upload pipeline is
JPEG-encoded at quality 85 regardless of the source format, while its
file name keeps the source's extension — a successful ingestion of
photo.png persists photo_small.png, photo_medium.png and photo_large.png
whose extension is ".png" but whose bytes are JPEG. -/
theorem derivatives_jpeg85_keep_source_extension :
    (∀ orig size : String,
      generateThumb orig size =
        { name := (extSplit orig).1 ++ "_" ++ size ++ (extSplit orig).2,
          data := FileData.jpegEncoded 85 }) ∧
    (processImage [⟨"photo.png", .original "png"⟩] "photo.png" (fun _ => false)).2 = true ∧
    (processImage [⟨"photo.png", .original "png"⟩] "photo.png" (fun _ => false)).1 =
      [⟨"photo.png", .original "png"⟩,
       ⟨"photo_small.png", .jpegEncoded 85⟩,
       ⟨"photo_medium.png", .jpegEncoded 85⟩,
       ⟨"photo_large.png", .jpegEncoded 85⟩] ∧
    (extSplit "photo_small.png").2 = ".png" := by
  refine ⟨fun orig size => rfl, ?_, ?_, ?_⟩ <;> decide

end IA
